import Mathlib

/-!
Verification of the robarma library (robust ARMA estimation, C++ headers)
against its natural-language specification.

The C++ sources are shallowly embedded over the real numbers: Eigen vectors
become `List ℝ` (or `Matrix (Fin m) (Fin n) ℝ` for the state-space parts),
`double` arithmetic becomes exact real arithmetic, and external collaborators
(the Ceres optimizer, Eigen QR / polynomial root finding, the pseudo-random
generator, wall-clock time) become explicit function parameters.  Every
definition mirrors one function of the sources, named after it.
-/

noncomputable section

namespace robarma

/-! ## Robust primitives (robust.hpp) -/

/-- Insertion step used by `sortList`; embeds the effect of `std::sort`
on a one-dimensional Eigen array. -/
def sortInsert (a : ℝ) : List ℝ → List ℝ
  | [] => [a]
  | b :: t => if a ≤ b then a :: b :: t else b :: sortInsert a t

/-- Sorting of a real vector, as performed by `std::sort` inside
`robarma::base::median` (robust.hpp line 12). -/
def sortList (x : List ℝ) : List ℝ :=
  x.foldr sortInsert []

/-- `robarma::base::median` (robust.hpp lines 8-14): sort, then take the mean
of the two middle entries when the length is even, the middle entry when odd. -/
def median (x : List ℝ) : ℝ :=
  let s := sortList x
  if x.length % 2 = 0 then
    (s.getD ((x.length - 2) / 2) 0 + s.getD ((x.length - 2) / 2 + 1) 0) / 2
  else
    s.getD (x.length / 2) 0

/-- `robarma::base::MAD` (robust.hpp lines 24-31):
median of absolute deviations from the median. -/
def MAD (x : List ℝ) : ℝ :=
  let med := median x
  median (x.map (fun xi => |xi - med|))

/-- `robarma::base::MADN` (robust.hpp lines 34-38).  Note: the source divides
by `T(0.675)`, not 0.6745. -/
def MADN (x : List ℝ) : ℝ :=
  MAD x / 0.675

/-- `robarma::base::huber` (robust.hpp lines 41-50): Huber psi applied
entry-wise, clip at `k` (default 1.345). -/
def huber (x : List ℝ) (k : ℝ := 1.345) : List ℝ :=
  x.map (fun xi => if |xi| ≤ k then xi else k * (if xi > 0 then 1 else -1))

/-- `robarma::base::bisquare` scalar version (robust.hpp lines 52-65). -/
def bisquare (x : ℝ) (k : ℝ := 1.547645) : ℝ :=
  if |x| ≤ k then 1 - (1 - (x / k) ^ 2) ^ 3 else 1

/-- `robarma::base::bisquare` vector version (robust.hpp lines 67-72). -/
def bisquareVec (x : List ℝ) (k : ℝ := 1.547645) : List ℝ :=
  x.map (fun xi => bisquare xi k)

/-- Mean of a list, as Eigen's `.mean()` (sum divided by size). -/
def listMean (x : List ℝ) : ℝ :=
  x.sum / x.length

/-- The `while`-loop of `robarma::base::scale` (robust.hpp lines 88-94),
with the remaining iteration budget (`max - i`) as fuel, the current relative
error and the current scale iterate as state.  One recursive step performs
`sigma_1 = sqrt(sigma_0^2 * mean(func(x / sigma_0)) / b)`,
`err = |sigma_1 - sigma_0| / sigma_0`, `sigma_0 = sigma_1`. -/
def scaleLoop (x : List ℝ) (b : ℝ) (func : List ℝ → List ℝ) :
    ℕ → ℝ → ℝ → ℝ
  | 0, _, sigma0 => sigma0
  | fuel + 1, err, sigma0 =>
    if err > 1e-6 then
      let sigma1 := Real.sqrt (sigma0 ^ 2 * listMean (func (x.map (fun xi => xi / sigma0))) / b)
      scaleLoop x b func fuel (|sigma1 - sigma0| / sigma0) sigma1
    else
      sigma0

/-- `robarma::base::scale` (robust.hpp lines 74-96): iterative M-scale with
tolerance 1e-6, at most 100 iterations, started at
`sigma_0 = median(|x|) / 0.6745` and initial error `1 + tol`. -/
def scale (x : List ℝ) (b : ℝ := 0.5)
    (func : List ℝ → List ℝ := fun v => bisquareVec v 1.547645) : ℝ :=
  scaleLoop x b func 100 (1 + 1e-6) (median (x.map (fun xi => |xi|)) / 0.6745)

/-! ## Muler rho-family (bip.hpp) -/

namespace bip

/-- `robarma::bip::eta` (bip.hpp lines 13-28): identity on `|x| ≤ 2`, odd
polynomial on `2 < |x| ≤ 3`, zero outside. -/
def eta (x : ℝ) : ℝ :=
  if |x| ≤ 2 then x
  else if 2 < |x| ∧ |x| ≤ 3 then
    0.016 * x ^ 7 - 0.312 * x ^ 5 + 1.728 * x ^ 3 - 1.944 * x
  else 0

/-- `robarma::bip::rho2` (bip.hpp lines 30-45): half-square on `|x| ≤ 2`,
even polynomial on `2 < |x| ≤ 3`, constant 3.25 outside. -/
def rho2 (x : ℝ) : ℝ :=
  if |x| ≤ 2 then 0.5 * x ^ 2
  else if 2 < |x| ∧ |x| ≤ 3 then
    0.002 * x ^ 8 - 0.052 * x ^ 6 + 0.432 * x ^ 4 - 0.972 * x ^ 2 + 1.792
  else 3.25

/-- `robarma::bip::rho1` (bip.hpp lines 47-51): `rho2` with the argument
rescaled by 0.405. -/
def rho1 (x : ℝ) : ℝ :=
  rho2 (x / 0.405)

/-- Vector version of `rho1` (bip.hpp lines 53-57). -/
def rho1Vec (x : List ℝ) : List ℝ :=
  x.map rho1

/-- Vector version of `rho2` (bip.hpp lines 59-63). -/
def rho2Vec (x : List ℝ) : List ℝ :=
  x.map rho2

/-- Vector version of `eta` (bip.hpp lines 65-69). -/
def etaVec (x : List ℝ) : List ℝ :=
  x.map eta

end bip

/-! ## Bianco rho-family (tau.hpp) -/

namespace tau

/-- `robarma::tau::rho1` (tau.hpp lines 19-30), clip constant c = 1.55. -/
def rho1 (x : ℝ) : ℝ :=
  if |x| ≤ 1.55 then
    3 * (x / 1.55) ^ 2 - 3 * (x / 1.55) ^ 4 + (x / 1.55) ^ 6
  else 1

/-- `robarma::tau::rho2` (tau.hpp lines 38-48), clip constant c = 2.8. -/
def rho2 (x : ℝ) : ℝ :=
  if |x| ≤ 2.8 then
    0.14 * x ^ 2 + 0.012 * x ^ 4 - 0.0018 * x ^ 6
  else 1

/-- `robarma::tau::psi` (tau.hpp lines 56-66), Huber-like clip at c = 1.55. -/
def psi (x : ℝ) : ℝ :=
  if |x| ≤ 1.55 then x else if x > 0 then 1.55 else -1.55

/-- `robarma::tau::w` (tau.hpp lines 68-76): `psi(x)/x` with `w(0) = 0`. -/
def w (x : ℝ) : ℝ :=
  if x = 0 then 0 else psi x / x

/-- Vector version of `rho1` (tau.hpp lines 32-36). -/
def rho1Vec (x : List ℝ) : List ℝ :=
  x.map rho1

/-- `robarma::tau::s` (tau.hpp lines 78-84): M-scale with Bianco `rho1`,
target b = 0.5. -/
def s (u : List ℝ) : ℝ :=
  scale u 0.5 rho1Vec

end tau

/-! ## Residual recurrences (arma.hpp)

The Eigen loops write `e(i)` once, for `i = r, …, n-1`, reading only entries
with smaller index; they are embedded by building the residual list one entry
at a time (`…Aux m` is the list of the first `m` entries). -/

/-- One step of `arma_model::arma_residuals` (arma.hpp lines 71-86): entry
`i = prev.length` of the classical residual vector, computed from the already
built entries `prev`.  Entries with `i < r = max p q` keep the initial zero;
for `i ≥ r` the loop body is
`e(i) = y(i) - mu*(1 - sum phi) - phi·y.segment(i-p,p).reverse()
      - theta·e.segment(i-q,q).reverse()`. -/
def armaResStep (y phi theta : List ℝ) (mu : ℝ) (prev : List ℝ) : ℝ :=
  let i := prev.length
  let p := phi.length
  let q := theta.length
  if i < max p q then 0
  else
    y.getD i 0 - mu * (1 - phi.sum)
      - ∑ j ∈ Finset.range p, phi.getD j 0 * y.getD (i - 1 - j) 0
      - ∑ j ∈ Finset.range q, theta.getD j 0 * prev.getD (i - 1 - j) 0

/-- First `m` entries of the classical residual vector. -/
def armaResAux (y phi theta : List ℝ) (mu : ℝ) : ℕ → List ℝ
  | 0 => []
  | m + 1 =>
    let prev := armaResAux y phi theta mu m
    prev ++ [armaResStep y phi theta mu prev]

/-- `arma_model::arma_residuals` (arma.hpp lines 71-86): classical ARMA
residuals of the whole series. -/
def arma_residuals (y phi theta : List ℝ) (mu : ℝ) : List ℝ :=
  armaResAux y phi theta mu y.length

/-- One step of `arma_model::bip_arma_residuals` (arma.hpp lines 88-113):
entry `i = prev.length` of the BIP residual vector.  For `i ≥ r` the loop
body is `e(i) = y(i) - mu*(1 - sum phi) - ar - rq - rp` with
`ar = phi·(y.segment(i-p,p).reverse() - e.segment(i-p,p).reverse())`,
`rq = theta·(sigma * eta(e.segment(i-q,q).reverse()/sigma))`,
`rp = phi·(sigma * eta(e.segment(i-p,p).reverse()/sigma))`. -/
def bipResStep (y phi theta : List ℝ) (mu sigma : ℝ) (prev : List ℝ) : ℝ :=
  let i := prev.length
  let p := phi.length
  let q := theta.length
  if i < max p q then 0
  else
    y.getD i 0 - mu * (1 - phi.sum)
      - ∑ j ∈ Finset.range p, phi.getD j 0 * (y.getD (i - 1 - j) 0 - prev.getD (i - 1 - j) 0)
      - ∑ j ∈ Finset.range q, theta.getD j 0 * (sigma * bip.eta (prev.getD (i - 1 - j) 0 / sigma))
      - ∑ j ∈ Finset.range p, phi.getD j 0 * (sigma * bip.eta (prev.getD (i - 1 - j) 0 / sigma))

/-- First `m` entries of the BIP residual vector. -/
def bipResAux (y phi theta : List ℝ) (mu sigma : ℝ) : ℕ → List ℝ
  | 0 => []
  | m + 1 =>
    let prev := bipResAux y phi theta mu sigma m
    prev ++ [bipResStep y phi theta mu sigma prev]

/-- `arma_model::bip_arma_residuals` (arma.hpp lines 88-113):
bounded-innovation-propagation residuals of the whole series. -/
def bip_arma_residuals (y phi theta : List ℝ) (mu sigma : ℝ) : List ℝ :=
  bipResAux y phi theta mu sigma y.length

/-! ## Model construction (arma.hpp lines 34-52) -/

/-- `robarma::arma_model` field content.  Orders are kept as integers, as in
the source (`int p, q`). -/
structure arma_model where
  y : List ℝ
  p : ℤ
  q : ℤ
  n : ℤ
  r : ℤ
  mu : ℝ
  sigma : ℝ

/-- The `arma_model` constructor (arma.hpp lines 46-52).  It stores the
arguments and computes `n = y.size()`, `r = fmax(p, q)`,
`mu = median(y)`, `sigma = scale(y - mu)`; it contains no validity check
and cannot fail. -/
def arma_model.make (y : List ℝ) (p q : ℤ) : arma_model :=
  { y := y
    p := p
    q := q
    n := (y.length : ℤ)
    r := max p q
    mu := median y
    sigma := scale (y.map (fun yi => yi - median y)) }

/-! ## Causal weights (ts.hpp lines 73-96) -/

/-- The `ma` array of `robarma::causal`: zero except entries
`k, …, k+q-1` (with `k = p+1`) holding `theta`. -/
def causalMA (p : ℕ) (theta : List ℝ) (i : ℕ) : ℝ :=
  if p + 1 ≤ i ∧ i < p + 1 + theta.length then theta.getD (i - (p + 1)) 0 else 0

/-- One step of the `lambda` recurrence of `robarma::causal`:
entries `< p` stay 0, entry `p` is 1, entries `p+1 … 99` follow
`lambda(i) = phi·lambda.segment(i-p,p).reverse() - ma(i)`, and entries
`≥ 100` keep the initial zero (the loop stops at `i = n = 100`). -/
def causalStep (phi theta : List ℝ) (prev : List ℝ) : ℝ :=
  let i := prev.length
  let p := phi.length
  if i < p then 0
  else if i = p then 1
  else if i < 100 then
    (∑ j ∈ Finset.range p, phi.getD j 0 * prev.getD (i - 1 - j) 0) - causalMA p theta i
  else 0

/-- First `m` entries of the `lambda` array of `robarma::causal`. -/
def causalAux (phi theta : List ℝ) : ℕ → List ℝ
  | 0 => []
  | m + 1 =>
    let prev := causalAux phi theta m
    prev ++ [causalStep phi theta prev]

/-- `robarma::causal` (ts.hpp lines 73-96): the `lambda` array has size
`100 + p`; the function returns `lambda.tail(99)`, i.e. drops the first
`p + 1` entries. -/
def causal (phi theta : List ℝ) : List ℝ :=
  (causalAux phi theta (100 + phi.length)).drop (phi.length + 1)

/-! ## Estimation results, parameters and fits
(estimation_result.hpp, arma.hpp lines 125-166) -/

/-- `robarma::estimation_method` (estimation_result.hpp lines 27-38). -/
inductive estimation_method where
  | hannan_rissanen | ols | mle | ftau | s | bs | mm | bmm
  deriving DecidableEq

/-- `robarma::estimation_result` (estimation_result.hpp lines 66-117);
the optimizer report string is irrelevant to the claims and omitted. -/
structure estimation_result where
  method : estimation_method
  convergence : Bool
  final_cost : ℝ

/-- `robarma::arma_params` (arma.hpp lines 125-139). -/
structure arma_params where
  phi : List ℝ
  theta : List ℝ
  mu : ℝ

/-- `robarma::arma_fit` (arma.hpp lines 153-166): final parameters and
result, plus the optional initial ones for provenance. -/
structure arma_fit where
  model : arma_model
  params : arma_params
  result : estimation_result
  initial_params : Option arma_params
  initial_result : Option estimation_result

/-! ## Solver wrapper (solver.hpp) -/

/-- `ceres::Solver::Options::minimizer_type` values used by the estimators. -/
inductive minimizer_type where
  | trust_region | line_search
  deriving DecidableEq

/-- The subset of `ceres::Solver::Options` the estimators set. -/
structure solver_options where
  minimizer : minimizer_type

/-- The external Ceres optimizer (`ceres::Solve`), modelled as a function
from the options, the cost functional and the starting parameters to the
final parameters together with the convergence flag
(`termination_type == CONVERGENCE`). -/
def ceres_solve_oracle : Type :=
  solver_options → (arma_params → ℝ) → arma_params → arma_params × Bool

/-- `robarma::solver::solve` (solver.hpp lines 38-73): copy the initial fit,
hand its parameter blocks to the optimizer, classify convergence strictly,
re-evaluate the cost functional at the returned parameters, and bundle the
result with the initial parameters and initial result as provenance. -/
def solver.solve (O : ceres_solve_oracle) (model : arma_model)
    (initial : arma_fit) (method : estimation_method)
    (costFn : arma_params → ℝ) (options : solver_options) : arma_fit :=
  let opt := O options costFn initial.params
  { model := model
    params := opt.1
    result := { method := method, convergence := opt.2, final_cost := costFn opt.1 }
    initial_params := some initial.params
    initial_result := some initial.result }

/-! ## Cost functionals (s.hpp, mm.hpp, bmm.hpp, bip_s.hpp) -/

/-- `robarma::s::cost::operator()` (s.hpp lines 22-33): M-scale of the
classical residuals with Muler `rho1` and target `delta = 3.25 / 2`. -/
def sCost (model : arma_model) (params : arma_params) : ℝ :=
  scale (arma_residuals model.y params.phi params.theta params.mu)
    (3.25 / 2) bip.rho1Vec

/-- `robarma::mm::cost::operator()` (mm.hpp lines 23-32):
`sum rho2(e / sigma) / (n - p)` over the classical residuals. -/
def mmCost (model : arma_model) (sigma : ℝ) (params : arma_params) : ℝ :=
  (((arma_residuals model.y params.phi params.theta params.mu).map
      (fun ei => ei / sigma)).map bip.rho2).sum / ((model.n - model.p : ℤ) : ℝ)

/-- `robarma::bmm::cost::operator()` (bmm.hpp lines 23-33):
`sum rho2(e / sigma)` over the BIP residuals computed at scale `sigma`. -/
def bmmCost (model : arma_model) (sigma : ℝ) (params : arma_params) : ℝ :=
  (((bip_arma_residuals model.y params.phi params.theta params.mu sigma).map
      (fun ei => ei / sigma)).map bip.rho2).sum

/-- `robarma::estimators::bip_s_functor::bip_sigma` (bip_s.hpp lines 25-31):
`sigma_bip = model.sigma / (1 + kappa^2 * sum(causal(phi,theta)^2))`
with `kappa = 0.8725`. -/
def bip_sigma (model : arma_model) (phi theta : List ℝ) : ℝ :=
  model.sigma / (1 + (0.8725 : ℝ) ^ 2 * ((causal phi theta).map (fun l => l ^ 2)).sum)

/-- `robarma::estimators::bip_s_functor::operator()` (bip_s.hpp lines 33-46):
M-scale of the BIP residuals (at scale `bip_sigma`) with Muler `rho1`
and target `delta = 3.25 / 2`. -/
def bipSCost (model : arma_model) (params : arma_params) : ℝ :=
  scale (bip_arma_residuals model.y params.phi params.theta params.mu
      (bip_sigma model params.phi params.theta))
    (3.25 / 2) bip.rho1Vec

/-! ## Estimator orchestration (estimators.hpp, mm.hpp, bmm.hpp, bip_s.hpp)

`robarma::initial::hannan_rissanen` (hr.hpp) is a closed-form two-stage QR
least-squares fit; the QR solves are external Eigen collaborators, so the
whole initial estimator is passed as an oracle `hr` below. -/

/-- The Hannan-Rissanen initial estimator, as an external collaborator
(hr.hpp lines 20-66; its two QR solves are Eigen calls). -/
def hr_oracle : Type := arma_model → arma_fit

/-- `robarma::estimators::s` (estimators.hpp lines 112-125): Hannan-Rissanen
initial fit, S cost, line-search minimizer. -/
def estimators.s (O : ceres_solve_oracle) (hr : hr_oracle)
    (model : arma_model) : arma_fit :=
  solver.solve O model (hr model) estimation_method.s (sCost model)
    { minimizer := minimizer_type.line_search }

/-- `robarma::estimators::bip_s` (bip_s.hpp lines 49-61): Hannan-Rissanen
initial fit, BIP-S cost, line-search minimizer. -/
def estimators.bip_s (O : ceres_solve_oracle) (hr : hr_oracle)
    (model : arma_model) : arma_fit :=
  solver.solve O model (hr model) estimation_method.bs (bipSCost model)
    { minimizer := minimizer_type.line_search }

/-- `robarma::mm::mm` (mm.hpp lines 35-44): solve the MM cost at the fixed
scale `sigma` from the supplied initial fit, default (trust-region) options. -/
def mm.mm (O : ceres_solve_oracle) (model : arma_model) (sigma : ℝ)
    (initial : arma_fit) : arma_fit :=
  solver.solve O model initial estimation_method.mm (mmCost model sigma)
    { minimizer := minimizer_type.trust_region }

/-- `robarma::bmm::bmm` (bmm.hpp lines 36-45): solve the BIP-MM cost at the
fixed scale `sigma` from the supplied initial fit, default options. -/
def bmm.bmm (O : ceres_solve_oracle) (model : arma_model) (sigma : ℝ)
    (initial : arma_fit) : arma_fit :=
  solver.solve O model initial estimation_method.bmm (bmmCost model sigma)
    { minimizer := minimizer_type.trust_region }

/-- `robarma::estimators::mm` (estimators.hpp lines 135-148): S fit first,
`sigma = S.final_cost`, then the MM cost from the S fit. -/
def estimators.mm (O : ceres_solve_oracle) (hr : hr_oracle)
    (model : arma_model) : arma_fit :=
  let initial := estimators.s O hr model
  let sigma := initial.result.final_cost
  solver.solve O model initial estimation_method.mm (mmCost model sigma)
    { minimizer := minimizer_type.trust_region }

/-- `robarma::estimators::bip_mm` (estimators.hpp lines 158-175): compute the
S and BIP-S fits, set `sigma = fmin` of their final costs, solve MM from the
S fit and BMM from the BIP-S fit, return the fit with the smaller final cost
(the BMM fit on ties, as `(m < mb) ? fit_mm : fit_bmm`). -/
def estimators.bip_mm (O : ceres_solve_oracle) (hr : hr_oracle)
    (model : arma_model) : arma_fit :=
  let s_mm := estimators.s O hr model
  let s_bmm := estimators.bip_s O hr model
  let sigma := min s_mm.result.final_cost s_bmm.result.final_cost
  let fit_mm := mm.mm O model sigma s_mm
  let fit_bmm := bmm.bmm O model sigma s_bmm
  if fit_mm.result.final_cost < fit_bmm.result.final_cost then fit_mm else fit_bmm

/-! ## Autocovariance matrices (ts.hpp lines 16-71) -/

/-- `robarma::autocov_matrix` (ts.hpp lines 46-71): sample autocovariance
matrix; entry `(i,j)` with `h = |i-j|` is
`sum_t yc(t)*yc(t+h) / (N-h)` for the mean-centered series `yc`,
and 0 when `N - h ≤ 0`. -/
def autocov_matrix (y : List ℝ) (m n : ℕ) : Matrix (Fin m) (Fin n) ℝ :=
  Matrix.of fun i j =>
    let N := y.length
    let yc := y.map (fun yi => yi - listMean y)
    let h := max i.val j.val - min i.val j.val
    if N ≤ h then 0
    else (∑ t ∈ Finset.range (N - h), yc.getD t 0 * yc.getD (t + h) 0) / ((N - h : ℕ) : ℝ)

/-- `robarma::robust_autocov_matrix` (ts.hpp lines 16-43): identical layout,
but the series is centered by the median and transformed by the Huber psi
(k = 1.345) before the bilinear sums. -/
def robust_autocov_matrix (y : List ℝ) (m n : ℕ) : Matrix (Fin m) (Fin n) ℝ :=
  Matrix.of fun i j =>
    let N := y.length
    let psi := huber (y.map (fun yi => yi - median y)) 1.345
    let h := max i.val j.val - min i.val j.val
    if N ≤ h then 0
    else (∑ t ∈ Finset.range (N - h), psi.getD t 0 * psi.getD (t + h) 0) / ((N - h : ℕ) : ℝ)

/-! ## State-space core (state_space_cost.hpp, mle.hpp, ftau.hpp) -/

/-- `state_space_cost::F0` (state_space_cost.hpp lines 22-29): companion-like
transition matrix of size `r = fmax(p, q+1)`; identity on the super-diagonal,
first column `phi` padded with zeros. -/
def F0 (r : ℕ) (phi : List ℝ) : Matrix (Fin r) (Fin r) ℝ :=
  Matrix.of fun i j =>
    if j.val = i.val + 1 then 1
    else if j.val = 0 then (if i.val < phi.length then phi.getD i.val 0 else 0)
    else 0

/-- `state_space_cost::H0` (state_space_cost.hpp lines 31-38): `H(0) = 1`,
`H(1..q) = theta`, zeros elsewhere. -/
def H0 (r : ℕ) (theta : List ℝ) : Fin r → ℝ :=
  fun i =>
    if i.val = 0 then 1
    else if i.val - 1 < theta.length then theta.getD (i.val - 1) 0 else 0

/-- `state_space_cost::P0` (state_space_cost.hpp lines 40-49): the stationary
state covariance, obtained by solving
`(I - kron(F, F)) vec(P0) = vec(H * H^T)` and reshaping.  The `r*r`-vector
index is represented by `Fin r × Fin r`; Eigen's raw index `m` splits as
`(m / r, m % r)` for the Kronecker product and as column-major
`(row m % r, col m / r)` for `vec`/`resize`, so Kronecker pair `(i, k)`
addresses `vec` entry `(row k, col i)` and the reshaped matrix reads the
solution at pair `(j, i)` for entry `(i, j)`.  Eigen's
`householderQr().solve` returns the exact solution of the invertible system,
embedded here as multiplication by the matrix inverse. -/
def P0 (r : ℕ) (F : Matrix (Fin r) (Fin r) ℝ) (H : Fin r → ℝ) :
    Matrix (Fin r) (Fin r) ℝ :=
  let S : Matrix (Fin r × Fin r) (Fin r × Fin r) ℝ :=
    1 - Matrix.kroneckerMap (· * ·) F F
  let V : Fin r × Fin r → ℝ := fun ik => H ik.2 * H ik.1
  let sol := S⁻¹.mulVec V
  Matrix.of fun i j => sol (j, i)

/-- The state-covariance initialization of `mle::cost::operator()`
(mle.hpp line 51): `P = autocov_matrix(y, r, r)` with `r = fmax(p, q+1)`. -/
def mleInitP (y : List ℝ) (r : ℕ) : Matrix (Fin r) (Fin r) ℝ :=
  autocov_matrix y r r

/-- The state-covariance initialization of `ftau::cost::operator()`
(ftau.hpp line 53): `P = robust_autocov_matrix(y, r, r)`. -/
def ftauInitP (y : List ℝ) (r : ℕ) : Matrix (Fin r) (Fin r) ℝ :=
  robust_autocov_matrix y r r

/-- `mle::cost::update` (mle.hpp lines 25-31): the Kalman measurement update
as written in the source.  A local `epsilon = numeric_limits::epsilon()` is
declared there but never used; both divisions are by `f` alone. -/
def mle.update {r : ℕ} (a : Fin r → ℝ) (P : Matrix (Fin r) (Fin r) ℝ)
    (v f : ℝ) (z : Fin r → ℝ) : (Fin r → ℝ) × Matrix (Fin r) (Fin r) ℝ :=
  let a' := a + (v / f) • P.mulVec z
  let P' := P - (1 / f) • Matrix.of (fun i j => P.mulVec z i * Matrix.vecMul z P j)
  (a', P')

/-- Modelled from the spec: the guarded MLE Kalman update the specification
describes ("guard by adding a tiny epsilon to the denominator"), with
epsilon the double-precision machine epsilon `2^(-52)` that the source
declares; both divisions use `f + epsilon`.  This definition is absent from
the source (the declared epsilon is unused) and exists for comparison. -/
def mle.updateGuarded {r : ℕ} (a : Fin r → ℝ) (P : Matrix (Fin r) (Fin r) ℝ)
    (v f : ℝ) (z : Fin r → ℝ) : (Fin r → ℝ) × Matrix (Fin r) (Fin r) ℝ :=
  let eps : ℝ := 2 ^ (-52 : ℤ)
  let a' := a + (v / (f + eps)) • P.mulVec z
  let P' := P - (1 / (f + eps)) • Matrix.of (fun i j => P.mulVec z i * Matrix.vecMul z P j)
  (a', P')

/-! ## Simulation (simulate.hpp) -/

/-- The recursions of `robarma::simulate` (simulate.hpp lines 88-112): entry
`i = prev.length` of the series, from the noise draws `e` and the already
built entries.  Entries `i ≤ r` keep the initial zero (the loops begin at
`r + 1`); the body depends on which of `p`, `q` are positive, and with
`p = q = 0` no loop runs and the series stays zero. -/
def simStep (phi theta : List ℝ) (mu : ℝ) (e : ℕ → ℝ) (prev : List ℝ) : ℝ :=
  let i := prev.length
  let p := phi.length
  let q := theta.length
  if i < max p q + 1 then 0
  else if 0 < p ∧ q = 0 then
    mu * (1 - phi.sum) + e i + ∑ j ∈ Finset.range p, phi.getD j 0 * prev.getD (i - 1 - j) 0
  else if p = 0 ∧ 0 < q then
    mu + e i + ∑ j ∈ Finset.range q, theta.getD j 0 * e (i - 1 - j)
  else if 0 < p ∧ 0 < q then
    mu * (1 - phi.sum) + e i
      + ∑ j ∈ Finset.range p, phi.getD j 0 * prev.getD (i - 1 - j) 0
      + ∑ j ∈ Finset.range q, theta.getD j 0 * e (i - 1 - j)
  else 0

/-- First `m` entries of the simulated series `x`. -/
def simAux (phi theta : List ℝ) (mu : ℝ) (e : ℕ → ℝ) : ℕ → List ℝ
  | 0 => []
  | m + 1 =>
    let prev := simAux phi theta mu e m
    prev ++ [simStep phi theta mu e prev]

/-- `robarma::simulate` (simulate.hpp lines 58-114).  External collaborators
are passed explicitly: `stOK`/`invOK` are `robarma::stationary` and
`robarma::invertible` (Eigen polynomial root finding), `noise` maps a seed to
the normal draw sequence (`Eigen::Rand`), and `time` is `std::time(nullptr)`.
The source substitutes `time` for the seed when `seed == 0`, draws
`nn = burn_in + n` innovations, runs the recursion and returns `x.tail(n)`.
Non-stationary or non-invertible inputs raise `std::invalid_argument`. -/
def simulate (stOK invOK : List ℝ → Bool) (noise : ℤ → ℕ → ℝ)
    (phi theta : List ℝ) (mu : ℝ) (n burn_in : ℕ) (seed time : ℤ) :
    Except String (List ℝ) :=
  let seed' := if seed = 0 then time else seed
  let nn := burn_in + n
  if 0 < phi.length ∧ stOK phi = false then
    Except.error "AR parameters must specify a stationary process."
  else if 0 < theta.length ∧ invOK theta = false then
    Except.error "MA parameters must specify an invertible process."
  else
    Except.ok ((simAux phi theta mu (noise seed') nn).drop (nn - n))

/-! ## Theorems -/

/-- Selecting the fit with the smaller final cost yields the minimum of the
two final costs (the second fit on ties). -/
theorem min_cost_select (a b : arma_fit) :
    (if a.result.final_cost < b.result.final_cost then a else b).result.final_cost =
      min a.result.final_cost b.result.final_cost := by
  split_ifs with h
  · exact (min_eq_left h.le).symm
  · exact (min_eq_right (not_lt.mp h)).symm

/-- C1: for every optimizer oracle, initial-estimator oracle and model, the
BIP-MM estimator computes the S fit and the BIP-S fit, sets the fixed scale
to the minimum of their final costs, solves the MM cost initialized at the S
fit and the BIP-MM cost initialized at the BIP-S fit — both at that same
fixed scale — and returns the fit whose final cost is smaller, so that the
returned final cost is the minimum of the two candidates' final costs. -/
theorem bip_mm_selects_min_cost_branch (O : ceres_solve_oracle)
    (hr : hr_oracle) (model : arma_model) :
    estimators.bip_mm O hr model =
      (if (mm.mm O model
              (min (estimators.s O hr model).result.final_cost
                (estimators.bip_s O hr model).result.final_cost)
              (estimators.s O hr model)).result.final_cost <
          (bmm.bmm O model
              (min (estimators.s O hr model).result.final_cost
                (estimators.bip_s O hr model).result.final_cost)
              (estimators.bip_s O hr model)).result.final_cost
       then mm.mm O model
              (min (estimators.s O hr model).result.final_cost
                (estimators.bip_s O hr model).result.final_cost)
              (estimators.s O hr model)
       else bmm.bmm O model
              (min (estimators.s O hr model).result.final_cost
                (estimators.bip_s O hr model).result.final_cost)
              (estimators.bip_s O hr model)) ∧
    (estimators.bip_mm O hr model).result.final_cost =
      min (mm.mm O model
              (min (estimators.s O hr model).result.final_cost
                (estimators.bip_s O hr model).result.final_cost)
              (estimators.s O hr model)).result.final_cost
          (bmm.bmm O model
              (min (estimators.s O hr model).result.final_cost
                (estimators.bip_s O hr model).result.final_cost)
              (estimators.bip_s O hr model)).result.final_cost :=
  ⟨rfl, min_cost_select _ _⟩

/-- C10: for every optimizer oracle, model, initial fit, method tag, cost
functional and options, the fit returned by the solver wrapper records the
supplied initial fit's parameters and result unchanged as its
`initial_params` / `initial_result` — the optimizer only transforms the
working copy of the parameters, never the recorded provenance. -/
theorem solve_preserves_initial_provenance (O : ceres_solve_oracle)
    (model : arma_model) (initial : arma_fit) (method : estimation_method)
    (costFn : arma_params → ℝ) (options : solver_options) :
    (solver.solve O model initial method costFn options).initial_params =
        some initial.params ∧
    (solver.solve O model initial method costFn options).initial_result =
        some initial.result :=
  ⟨rfl, rfl⟩

/-- C4 (counterexample): the `arma_model` constructor accepts the invalid
input `y = [1, 2]`, `p = -1`, `q = 0` — the series is shorter than any
admissible length and the AR order is negative — and still produces a Model
value carrying those fields, refuting the claim that no Model is produced
for invalid input. -/
theorem arma_model_make_accepts_invalid_input :
    (arma_model.make [1, 2] (-1) 0).p = -1 ∧
    (arma_model.make [1, 2] (-1) 0).n = 2 ∧
    (arma_model.make [1, 2] (-1) 0).r = 0 :=
  ⟨rfl, rfl, rfl⟩

/-- C4 (amended): the `arma_model` constructor performs no validation at all:
for every series `y` and integer orders `p`, `q` — valid or not — it produces
a Model storing the arguments with `n = |y|`, `r = max(p, q)`,
`mu = median(y)` and `sigma` the M-scale of the centered series. -/
theorem arma_model_make_total (y : List ℝ) (p q : ℤ) :
    (arma_model.make y p q).y = y ∧
    (arma_model.make y p q).p = p ∧
    (arma_model.make y p q).q = q ∧
    (arma_model.make y p q).n = (y.length : ℤ) ∧
    (arma_model.make y p q).r = max p q ∧
    (arma_model.make y p q).mu = median y ∧
    (arma_model.make y p q).sigma = scale (y.map (fun yi => yi - median y)) :=
  ⟨rfl, rfl, rfl, rfl, rfl, rfl, rfl⟩

/-- C9 (amended): `simulate` is deterministic and reproducible given any
nonzero seed: the result does not depend on the wall-clock time. -/
theorem simulate_reproducible_of_seed_ne_zero (stOK invOK : List ℝ → Bool)
    (noise : ℤ → ℕ → ℝ) (phi theta : List ℝ) (mu : ℝ) (n burn_in : ℕ)
    (seed t1 t2 : ℤ) (h : seed ≠ 0) :
    simulate stOK invOK noise phi theta mu n burn_in seed t1 =
      simulate stOK invOK noise phi theta mu n burn_in seed t2 := by
  simp only [simulate, if_neg h]

/-- Witness for C9 (amended): at the concrete seed 5, two calls at different
wall-clock times agree. -/
theorem simulate_reproducible_of_seed_ne_zero_witness :
    (5 : ℤ) ≠ 0 ∧
    simulate (fun _ => true) (fun _ => true) (fun s _ => (s : ℝ))
        [] [0.5] 0 1 2 5 1 =
      simulate (fun _ => true) (fun _ => true) (fun s _ => (s : ℝ))
        [] [0.5] 0 1 2 5 2 :=
  ⟨by decide, simulate_reproducible_of_seed_ne_zero _ _ _ _ _ _ _ _ _ _ _
    (by decide)⟩

/-- C9 (counterexample): with the documented default seed 0 the source
substitutes the wall-clock time for the seed, so two calls with identical
arguments made at times 1 and 2 return different series (here with the MA(1)
recursion and a noise oracle returning the effective seed). -/
theorem simulate_seed_zero_not_reproducible :
    simulate (fun _ => true) (fun _ => true) (fun s _ => (s : ℝ))
        [] [0.5] 0 1 2 0 1 ≠
      simulate (fun _ => true) (fun _ => true) (fun s _ => (s : ℝ))
        [] [0.5] 0 1 2 0 2 := by
  simp only [simulate]
  norm_num [simAux, simStep]

/-- The M-scale iteration is absorbed at 0: once the scale iterate is 0,
every further iterate is 0 (the update is `sqrt(0^2 * mean(...) / b) = 0`),
so the loop returns 0. -/
theorem scaleLoop_zero (x : List ℝ) (b : ℝ) (f : List ℝ → List ℝ) :
    ∀ fuel err, scaleLoop x b f fuel err 0 = 0 := by
  intro fuel
  induction fuel with
  | zero => intro err; rfl
  | succ m ih =>
    intro err
    have hs : Real.sqrt ((0 : ℝ) ^ 2 * listMean (f (x.map (fun xi => xi / 0))) / b) = 0 := by
      norm_num
    simp only [scaleLoop, hs]
    split_ifs with h
    · simpa using ih _
    · rfl

/-- C3: for every input vector, target and rho, the M-scale iteration starts
at `sigma_0 = median(|x|) / 0.6745`, runs the relative-change loop with
tolerance `1e-6` for at most 100 iterations, and when that starting value is
0 it returns 0 (no failure is possible: the function is total). -/
theorem scale_starts_at_madn_and_zero_safe (x : List ℝ) (b : ℝ)
    (f : List ℝ → List ℝ) :
    scale x b f =
      scaleLoop x b f 100 (1 + 1e-6) (median (x.map (fun xi => |xi|)) / 0.6745) ∧
    (median (x.map (fun xi => |xi|)) / 0.6745 = 0 → scale x b f = 0) := by
  refine ⟨rfl, fun h => ?_⟩
  rw [scale, h]
  exact scaleLoop_zero x b f 100 _

/-- Witness for C3: the all-zero series has `sigma_0 = 0` and the M-scale
(with the default bisquare rho and target 0.5) returns 0. -/
theorem scale_starts_at_madn_and_zero_safe_witness :
    median (([0, 0, 0] : List ℝ).map (fun xi => |xi|)) / 0.6745 = 0 ∧
    scale [0, 0, 0] 0.5 (fun v => bisquareVec v 1.547645) = 0 := by
  have h : median (([0, 0, 0] : List ℝ).map (fun xi => |xi|)) / 0.6745 = 0 := by
    norm_num [median, sortList, sortInsert]
  exact ⟨h, (scale_starts_at_madn_and_zero_safe [0, 0, 0] 0.5
    (fun v => bisquareVec v 1.547645)).2 h⟩

/-- C8 (failing input): on `x = [0, 1, 2]` (where `MAD = 1`) the source's
`MADN` returns `1 / 0.675`, not the claimed `MAD / 0.6745`; the constant in
the code is 0.675 while the comment in `robarma::base::scale` and the claim
use 0.6745. -/
theorem madn_uses_0675_not_06745 :
    MADN [0, 1, 2] ≠ MAD [0, 1, 2] / 0.6745 := by
  norm_num [MADN, MAD, median, sortList, sortInsert]

/-- C5: at the failing input `f = 0` (with `a = 0`, `P = 1`, `z = e_0`,
`v = 1` in state dimension 1) the source's Kalman update differs from the
epsilon-guarded update the specification describes: the code divides by `f`
alone — its declared `epsilon` is never used — while the guarded update
divides by `f + 2^(-52)`. -/
theorem mle_update_lacks_epsilon_guard :
    mle.update (r := 1) 0 1 1 0 (fun _ => 1) ≠
      mle.updateGuarded (r := 1) 0 1 1 0 (fun _ => 1) := by
  intro h
  have h0 := congrArg (fun t => t.1 0) h
  simp only [mle.update, mle.updateGuarded, Matrix.one_mulVec] at h0
  norm_num [Pi.add_apply, Pi.smul_apply] at h0

/-- The frontier of `{x : ℝ | |x| ≤ c}` (c nonzero) is the pair of boundary
points `{x | |x| = c}`. -/
theorem frontier_absLe (c : ℝ) (hc : c ≠ 0) :
    frontier {x : ℝ | |x| ≤ c} = {x : ℝ | |x| = c} := by
  have h : {x : ℝ | |x| ≤ c} = Metric.closedBall 0 c := by
    ext a
    simp [Metric.mem_closedBall, Real.dist_eq]
  rw [h, frontier_closedBall (0 : ℝ) hc]
  ext a
  simp [Real.dist_eq]

/-- On the region `|x| > 2` selected by its outer branch, the middle
condition `2 < |x| ∧ |x| ≤ 3` of `eta` collapses to `|x| ≤ 3`. -/
theorem eta_eq_piecewise : bip.eta = fun x =>
    if |x| ≤ 2 then x
    else if |x| ≤ 3 then 0.016 * x ^ 7 - 0.312 * x ^ 5 + 1.728 * x ^ 3 - 1.944 * x
    else 0 := by
  funext x
  simp only [bip.eta]
  split_ifs with h1 h2 h3 h4
  · rfl
  · rfl
  · exact absurd h2.2 h3
  · exact absurd ⟨not_le.mp h1, h4⟩ h2
  · rfl

/-- `eta` is continuous: the pieces agree exactly at `|x| = 2` and `|x| = 3`. -/
theorem eta_continuous : Continuous bip.eta := by
  rw [eta_eq_piecewise]
  apply Continuous.if
  · intro a ha
    rw [frontier_absLe 2 (by norm_num)] at ha
    rcases (abs_eq (by norm_num : (0:ℝ) ≤ 2)).mp ha with h | h <;> subst h <;> norm_num
  · exact continuous_id
  · apply Continuous.if
    · intro a ha
      rw [frontier_absLe 3 (by norm_num)] at ha
      rcases (abs_eq (by norm_num : (0:ℝ) ≤ 3)).mp ha with h | h <;> subst h <;> norm_num
    · fun_prop
    · exact continuous_const

/-- Same collapse of the middle condition for Muler `rho2`. -/
theorem rho2_eq_piecewise : bip.rho2 = fun x =>
    if |x| ≤ 2 then 0.5 * x ^ 2
    else if |x| ≤ 3 then
      0.002 * x ^ 8 - 0.052 * x ^ 6 + 0.432 * x ^ 4 - 0.972 * x ^ 2 + 1.792
    else 3.25 := by
  funext x
  simp only [bip.rho2]
  split_ifs with h1 h2 h3 h4
  · rfl
  · rfl
  · exact absurd h2.2 h3
  · exact absurd ⟨not_le.mp h1, h4⟩ h2
  · rfl

/-- Muler `rho2` is continuous: the pieces agree exactly at `|x| = 2`
(value 2) and `|x| = 3` (value 3.25). -/
theorem rho2_continuous : Continuous bip.rho2 := by
  rw [rho2_eq_piecewise]
  apply Continuous.if
  · intro a ha
    rw [frontier_absLe 2 (by norm_num)] at ha
    rcases (abs_eq (by norm_num : (0:ℝ) ≤ 2)).mp ha with h | h <;> subst h <;> norm_num
  · fun_prop
  · apply Continuous.if
    · intro a ha
      rw [frontier_absLe 3 (by norm_num)] at ha
      rcases (abs_eq (by norm_num : (0:ℝ) ≤ 3)).mp ha with h | h <;> subst h <;> norm_num
    · fun_prop
    · exact continuous_const

/-- Muler `rho1` is continuous, being `rho2` after rescaling by 0.405. -/
theorem rho1_continuous : Continuous bip.rho1 :=
  rho2_continuous.comp (continuous_id.div_const 0.405)

/-- Bianco `rho1` is continuous: at `|x| = 1.55` the polynomial piece
takes the outer value 1. -/
theorem tau_rho1_continuous : Continuous tau.rho1 := by
  unfold tau.rho1
  apply Continuous.if
  · intro a ha
    rw [frontier_absLe 1.55 (by norm_num)] at ha
    rcases (abs_eq (by norm_num : (0:ℝ) ≤ 1.55)).mp ha with h | h <;> subst h <;> norm_num
  · fun_prop
  · exact continuous_const

/-- Bianco `rho2` at the boundary 2.8 takes the inner polynomial value. -/
theorem tau_rho2_at_boundary : tau.rho2 2.8 = 9451022 / 9765625 := by
  have habs : |(2.8 : ℝ)| = 2.8 := abs_of_pos (by norm_num)
  rw [tau.rho2, habs, if_pos le_rfl]
  norm_num

/-- Bianco `rho2` outside the boundary, at 3, takes the outer value 1. -/
theorem tau_rho2_at_three : tau.rho2 3 = 1 := by
  have habs : |(3 : ℝ)| = 3 := abs_of_pos (by norm_num)
  rw [tau.rho2, habs, if_neg (by norm_num)]

/-- C7 (counterexample): Bianco `rho2` is not continuous at its piecewise
boundary 2.8: the limit from the right is 1 while the value at the boundary
is the inner polynomial value 0.9677846528. -/
theorem tau_rho2_discontinuous_at_28 : ¬ ContinuousAt tau.rho2 2.8 := by
  intro h
  have h1 : Filter.Tendsto tau.rho2 (nhdsWithin 2.8 (Set.Ioi 2.8))
      (nhds (tau.rho2 2.8)) :=
    h.tendsto.mono_left nhdsWithin_le_nhds
  have h2 : Filter.Tendsto tau.rho2 (nhdsWithin 2.8 (Set.Ioi 2.8)) (nhds 1) := by
    apply Filter.Tendsto.congr' _ tendsto_const_nhds
    filter_upwards [self_mem_nhdsWithin] with x hx
    have hx' : (2.8 : ℝ) < x := hx
    rw [tau.rho2, if_neg]
    rw [abs_of_pos (by linarith)]
    linarith
  have heq : tau.rho2 2.8 = 1 := tendsto_nhds_unique h1 h2
  have hv : tau.rho2 2.8 = 9451022 / 9765625 := by
    have habs : |(2.8 : ℝ)| = 2.8 := abs_of_pos (by norm_num)
    rw [tau.rho2, habs, if_pos le_rfl]
    norm_num
  rw [hv] at heq
  norm_num at heq

/-- C7 (amended): Muler `rho1`, `rho2`, `eta` and Bianco `rho1` are
continuous everywhere — in particular at every piecewise boundary, where the
polynomial pieces agree exactly — while Bianco `rho2` jumps at the boundary
`|x| = 2.8` by far more than `1e-12` (its value there is 0.9677846528
against the outer value 1 taken at 3). -/
theorem rho_family_boundary_continuity :
    Continuous bip.rho1 ∧ Continuous bip.rho2 ∧ Continuous bip.eta ∧
    Continuous tau.rho1 ∧ 1e-12 < |tau.rho2 3 - tau.rho2 2.8| := by
  refine ⟨rho1_continuous, rho2_continuous, eta_continuous,
    tau_rho1_continuous, ?_⟩
  rw [tau_rho2_at_three, tau_rho2_at_boundary, abs_of_pos (by norm_num)]
  norm_num

/-- The sample autocovariance of the concrete series `[1, -1]` in state
dimension 1 is the 1×1 matrix with entry 1. -/
theorem autocov_concrete :
    autocov_matrix [1, -1] 1 1 = Matrix.of (fun _ _ => (1 : ℝ)) := by
  ext i j
  fin_cases i; fin_cases j
  simp [autocov_matrix, listMean]
  norm_num [Finset.sum_range_succ]

/-- The stationary Lyapunov covariance for the AR(1) transition `phi = 0.5`
in state dimension 1 is the 1×1 matrix with entry `1/(1 - 0.25) = 4/3`. -/
theorem P0_concrete :
    P0 1 (F0 1 [0.5]) (H0 1 []) = Matrix.of (fun _ _ => (4 / 3 : ℝ)) := by
  have hS : (1 - Matrix.kroneckerMap (· * ·) (F0 1 [0.5]) (F0 1 [0.5]) :
      Matrix (Fin 1 × Fin 1) (Fin 1 × Fin 1) ℝ) =
      Matrix.of (fun _ _ => (3 / 4 : ℝ)) := by
    ext a b
    have ha : a = ⟨0, 0⟩ := Subsingleton.elim _ _
    have hb : b = ⟨0, 0⟩ := Subsingleton.elim _ _
    subst ha; subst hb
    simp [Matrix.kroneckerMap, F0, Matrix.one_apply]
    norm_num
  have hinv : (1 - Matrix.kroneckerMap (· * ·) (F0 1 [0.5]) (F0 1 [0.5]) :
      Matrix (Fin 1 × Fin 1) (Fin 1 × Fin 1) ℝ)⁻¹ =
      Matrix.of (fun _ _ => (4 / 3 : ℝ)) := by
    apply Matrix.inv_eq_right_inv
    rw [hS]
    ext a b
    have ha : a = ⟨0, 0⟩ := Subsingleton.elim _ _
    have hb : b = ⟨0, 0⟩ := Subsingleton.elim _ _
    subst ha; subst hb
    rw [Matrix.mul_apply]
    rw [show (Finset.univ : Finset (Fin 1 × Fin 1)) = {⟨0, 0⟩} from rfl]
    rw [Finset.sum_singleton]
    norm_num [Matrix.one_apply]
  unfold P0
  ext i j
  fin_cases i; fin_cases j
  simp only [hinv, Matrix.of_apply, Matrix.mulVec]
  simp only [Matrix.dotProduct]
  rw [show (Finset.univ : Finset (Fin 1 × Fin 1)) = {⟨0, 0⟩} from rfl,
    Finset.sum_singleton]
  norm_num [H0]

/-- C6 (counterexample): for the concrete series `y = [1, -1]` and AR(1)
parameters `phi = [0.5]`, `theta = []` (state dimension `r = 1`), the matrix
with which the MLE filter initializes its state covariance — the sample
autocovariance, entry 1 — differs from the stationary Lyapunov solution
`P0(F, H)`, entry 4/3, so the MLE filter does not initialize with `P0`. -/
theorem mle_does_not_initialize_with_P0 :
    mleInitP [1, -1] 1 ≠ P0 1 (F0 1 [0.5]) (H0 1 []) := by
  intro h
  have h0 := congrArg (fun M => M 0 0) h
  rw [show mleInitP [1, -1] 1 = autocov_matrix [1, -1] 1 1 from rfl,
    autocov_concrete, P0_concrete] at h0
  norm_num at h0

/-- C6 (amended): the MLE Kalman filter initializes the state covariance
with the sample autocovariance matrix `autocov_matrix(y, r, r)` — not with
the stationary Lyapunov solution `state_space_cost::P0`, which exists in the
source but is unused there, and differs from the sample autocovariance
already on the concrete instance `y = [1, -1]`, `phi = [0.5]` — while the
filtered-tau estimator substitutes the robust (Huberized) autocovariance
matrix. -/
theorem kalman_initial_covariance :
    (∀ (y : List ℝ) (r : ℕ), mleInitP y r = autocov_matrix y r r) ∧
    (∀ (y : List ℝ) (r : ℕ), ftauInitP y r = robust_autocov_matrix y r r) ∧
    mleInitP [1, -1] 1 ≠ P0 1 (F0 1 [0.5]) (H0 1 []) := by
  refine ⟨fun _ _ => rfl, fun _ _ => rfl, fun h => ?_⟩
  have h0 := congrArg (fun M => M 0 0) h
  rw [show mleInitP [1, -1] 1 = autocov_matrix [1, -1] 1 1 from rfl,
    autocov_concrete, P0_concrete] at h0
  norm_num at h0

/-- The list of the first `m` BIP residual entries has length `m`. -/
theorem bipResAux_length (y phi theta : List ℝ) (mu sigma : ℝ) :
    ∀ m, (bipResAux y phi theta mu sigma m).length = m := by
  intro m
  induction m with
  | zero => rfl
  | succ k ih => simp [bipResAux, ih]

/-- Entry `i` of the BIP residual list is stable once written: for any
`m > i` it equals the step function applied to the first `i` entries. -/
theorem bipResAux_getD (y phi theta : List ℝ) (mu sigma : ℝ) :
    ∀ {i m : ℕ}, i < m →
      (bipResAux y phi theta mu sigma m).getD i 0 =
        bipResStep y phi theta mu sigma (bipResAux y phi theta mu sigma i) := by
  intro i m
  induction m with
  | zero => omega
  | succ k ih =>
    intro him
    simp only [bipResAux]
    rcases Nat.lt_or_ge i k with hik | hik
    · rw [List.getD_append _ _ _ _ (by rw [bipResAux_length]; exact hik)]
      exact ih hik
    · have hik' : i = k := by omega
      subst hik'
      rw [List.getD_append_right _ _ _ _ (by rw [bipResAux_length])]
      rw [bipResAux_length]
      simp

/-- The BIP residual entries below `r = max p q` are zero. -/
theorem bip_residuals_head_zero (y phi theta : List ℝ) (mu sigma : ℝ) :
    ∀ i, i < max phi.length theta.length →
      (bip_arma_residuals y phi theta mu sigma).getD i 0 = 0 := by
  intro i hir
  unfold bip_arma_residuals
  rcases Nat.lt_or_ge i y.length with hin | hin
  · rw [bipResAux_getD _ _ _ _ _ hin]
    rw [bipResStep]
    simp only [bipResAux_length]
    rw [if_pos hir]
  · apply List.getD_eq_default
    rw [bipResAux_length]
    exact hin

/-- For `r ≤ i < n` the BIP residual entry satisfies the specification's
one-indexed recurrence
`e_i = y_i - mu(1 - sum phi) - sum_k phi_k (y_(i-k) - e_(i-k))
     - sigma * sum_k phi_k eta(e_(i-k)/sigma)
     - sigma * sum_k theta_k eta(e_(i-k)/sigma)`. -/
theorem bip_residuals_step (y phi theta : List ℝ) (mu sigma : ℝ) :
    ∀ i, max phi.length theta.length ≤ i → i < y.length →
      (bip_arma_residuals y phi theta mu sigma).getD i 0 =
        y.getD i 0 - mu * (1 - phi.sum)
        - (∑ k ∈ Finset.Icc 1 phi.length, phi.getD (k - 1) 0 *
            (y.getD (i - k) 0 - (bip_arma_residuals y phi theta mu sigma).getD (i - k) 0))
        - sigma * (∑ k ∈ Finset.Icc 1 phi.length, phi.getD (k - 1) 0 *
            bip.eta ((bip_arma_residuals y phi theta mu sigma).getD (i - k) 0 / sigma))
        - sigma * (∑ k ∈ Finset.Icc 1 theta.length, theta.getD (k - 1) 0 *
            bip.eta ((bip_arma_residuals y phi theta mu sigma).getD (i - k) 0 / sigma)) := by
  intro i hir hin
  have hE : ∀ k, k < i →
      (bipResAux y phi theta mu sigma i).getD k 0 =
        (bip_arma_residuals y phi theta mu sigma).getD k 0 := by
    intro k hk
    unfold bip_arma_residuals
    rw [bipResAux_getD _ _ _ _ _ hk, bipResAux_getD _ _ _ _ _ (hk.trans hin)]
  conv_lhs => rw [bip_arma_residuals, bipResAux_getD _ _ _ _ _ hin]
  rw [bipResStep]
  simp only [bipResAux_length]
  rw [if_neg (not_lt.mpr hir)]
  have hsump : ∀ f : ℕ → ℝ,
      (∑ k ∈ Finset.Icc 1 phi.length, f k) =
        ∑ j ∈ Finset.range phi.length, f (1 + j) := by
    intro f
    rw [← Nat.Ico_succ_right, Finset.sum_Ico_eq_sum_range]
    simp
  have hsumq : ∀ f : ℕ → ℝ,
      (∑ k ∈ Finset.Icc 1 theta.length, f k) =
        ∑ j ∈ Finset.range theta.length, f (1 + j) := by
    intro f
    rw [← Nat.Ico_succ_right, Finset.sum_Ico_eq_sum_range]
    simp
  rw [hsump, hsump, hsumq]
  have hidx : ∀ j : ℕ, i - (1 + j) = i - 1 - j := by
    intro j
    omega
  have h1 : ∀ j ∈ Finset.range phi.length,
      phi.getD (1 + j - 1) 0 *
          (y.getD (i - (1 + j)) 0 -
            (bip_arma_residuals y phi theta mu sigma).getD (i - (1 + j)) 0) =
        phi.getD j 0 * (y.getD (i - 1 - j) 0 -
          (bipResAux y phi theta mu sigma i).getD (i - 1 - j) 0) := by
    intro j hj
    have hjp : j < phi.length := Finset.mem_range.mp hj
    have hlt : i - 1 - j < i := by
      have : 1 ≤ phi.length := by omega
      omega
    rw [hidx j, hE _ hlt]
    simp
  have h2 : ∀ j ∈ Finset.range phi.length,
      phi.getD (1 + j - 1) 0 *
          bip.eta ((bip_arma_residuals y phi theta mu sigma).getD (i - (1 + j)) 0 / sigma) =
        phi.getD j 0 *
          bip.eta ((bipResAux y phi theta mu sigma i).getD (i - 1 - j) 0 / sigma) := by
    intro j hj
    have hjp : j < phi.length := Finset.mem_range.mp hj
    have hlt : i - 1 - j < i := by
      have : 1 ≤ phi.length := by omega
      omega
    rw [hidx j, hE _ hlt]
    simp
  have h3 : ∀ j ∈ Finset.range theta.length,
      theta.getD (1 + j - 1) 0 *
          bip.eta ((bip_arma_residuals y phi theta mu sigma).getD (i - (1 + j)) 0 / sigma) =
        theta.getD j 0 *
          bip.eta ((bipResAux y phi theta mu sigma i).getD (i - 1 - j) 0 / sigma) := by
    intro j hj
    have hjq : j < theta.length := Finset.mem_range.mp hj
    have hlt : i - 1 - j < i := by
      have : 1 ≤ theta.length := by omega
      omega
    rw [hidx j, hE _ hlt]
    simp
  rw [Finset.sum_congr rfl h1, Finset.sum_congr rfl h2, Finset.sum_congr rfl h3]
  rw [Finset.mul_sum, Finset.mul_sum]
  have hc : ∀ (c : List ℝ) (g : ℕ → ℝ),
      (∑ j ∈ Finset.range c.length, c.getD j 0 * (sigma * g j)) =
        ∑ j ∈ Finset.range c.length, sigma * (c.getD j 0 * g j) := by
    intro c g
    apply Finset.sum_congr rfl
    intro j _
    ring
  rw [hc phi, hc theta]
  ring

/-- C2: for every series, parameters and scale, the BIP residual vector has
length `n`, entries `e_0 … e_(r-1)` equal to zero with `r = max(p, q)`,
and for every `r ≤ i < n` satisfies the BIP recurrence of the
specification, with `eta` the Muler BIP correction function. -/
theorem bip_residuals_spec (y phi theta : List ℝ) (mu sigma : ℝ) :
    (bip_arma_residuals y phi theta mu sigma).length = y.length ∧
    (∀ i, i < max phi.length theta.length →
      (bip_arma_residuals y phi theta mu sigma).getD i 0 = 0) ∧
    (∀ i, max phi.length theta.length ≤ i → i < y.length →
      (bip_arma_residuals y phi theta mu sigma).getD i 0 =
        y.getD i 0 - mu * (1 - phi.sum)
        - (∑ k ∈ Finset.Icc 1 phi.length, phi.getD (k - 1) 0 *
            (y.getD (i - k) 0 - (bip_arma_residuals y phi theta mu sigma).getD (i - k) 0))
        - sigma * (∑ k ∈ Finset.Icc 1 phi.length, phi.getD (k - 1) 0 *
            bip.eta ((bip_arma_residuals y phi theta mu sigma).getD (i - k) 0 / sigma))
        - sigma * (∑ k ∈ Finset.Icc 1 theta.length, theta.getD (k - 1) 0 *
            bip.eta ((bip_arma_residuals y phi theta mu sigma).getD (i - k) 0 / sigma))) :=
  ⟨bipResAux_length y phi theta mu sigma y.length,
    bip_residuals_head_zero y phi theta mu sigma,
    bip_residuals_step y phi theta mu sigma⟩

/-- Witness for C2: the AR(1) instance `y = [1, 2, 3]`, `phi = [0.5]`,
`theta = []`, `mu = 0`, `sigma = 1` at index `i = 1` satisfies the
recurrence. -/
theorem bip_residuals_spec_witness :
    max ([0.5] : List ℝ).length ([] : List ℝ).length ≤ 1 ∧
    1 < ([1, 2, 3] : List ℝ).length ∧
    (bip_arma_residuals [1, 2, 3] [0.5] [] 0 1).getD 1 0 =
      ([1, 2, 3] : List ℝ).getD 1 0 - 0 * (1 - ([0.5] : List ℝ).sum)
      - (∑ k ∈ Finset.Icc 1 ([0.5] : List ℝ).length, ([0.5] : List ℝ).getD (k - 1) 0 *
          (([1, 2, 3] : List ℝ).getD (1 - k) 0 -
            (bip_arma_residuals [1, 2, 3] [0.5] [] 0 1).getD (1 - k) 0))
      - 1 * (∑ k ∈ Finset.Icc 1 ([0.5] : List ℝ).length, ([0.5] : List ℝ).getD (k - 1) 0 *
          bip.eta ((bip_arma_residuals [1, 2, 3] [0.5] [] 0 1).getD (1 - k) 0 / 1))
      - 1 * (∑ k ∈ Finset.Icc 1 ([] : List ℝ).length, ([] : List ℝ).getD (k - 1) 0 *
          bip.eta ((bip_arma_residuals [1, 2, 3] [0.5] [] 0 1).getD (1 - k) 0 / 1)) :=
  ⟨by norm_num, by norm_num,
    (bip_residuals_spec [1, 2, 3] [0.5] [] 0 1).2.2 1 (by norm_num) (by norm_num)⟩

end robarma
